import Mathlib

/-!
Shallow embedding of the smart-rte document mutation engine
(src/rust/smart_rte_core: doc.rs, selection.rs, history.rs, ops.rs, lib.rs)
and proofs about its specification claims.

Strings are modelled as `List Char`, one element per encoded unit, so that
the byte-indexed range arithmetic of the Rust source maps to list indices.
Stacks (`Vec` used with push/pop at the back) are modelled with the stack
top at the head of the list.
-/

namespace SmartRte

/-- Inline style flags and optional scalar fields (doc.rs `InlineStyle`). -/
structure InlineStyle where
  bold : Bool
  italic : Bool
  underline : Bool
  code : Bool
  link : Option String
  color : Option String
  highlight : Option String
  font_size_px : Option Nat
deriving DecidableEq

/-- `InlineStyle::default()`: all flags false, all optional fields absent. -/
def defaultStyle : InlineStyle :=
  ⟨false, false, false, false, none, none, none, none⟩

/-- A styled text fragment (doc.rs `InlineSpan`). -/
structure InlineSpan where
  text : List Char
  style : InlineStyle
deriving DecidableEq

/-- doc.rs `BorderStyle`. -/
structure BorderStyle where
  color : String
  width_px : Nat
deriving DecidableEq

/-- doc.rs `CellStyle`. -/
structure CellStyle where
  background : Option String
  border : Option BorderStyle
deriving DecidableEq

/-- doc.rs `TableCell`. -/
structure TableCell where
  text : List Char
  colspan : Nat
  rowspan : Nat
  style : CellStyle
  placeholder : Bool
  spans : Option (List InlineSpan)
deriving DecidableEq

/-- `TableCell::default()`: empty text, 1×1 span, default style. -/
def defaultCell : TableCell :=
  ⟨[], 1, 1, ⟨none, none⟩, false, none⟩

/-- doc.rs `TableRow`. -/
structure TableRow where
  cells : List TableCell
  height_px : Option Nat
deriving DecidableEq

/-- `TableRow` default used when reading a row out of range. -/
def defaultRow : TableRow := ⟨[], none⟩

/-- doc.rs `Table`. -/
structure Table where
  rows : List TableRow
  freeze_header : Bool
  freeze_first_col : Bool
  column_widths : List Nat
deriving DecidableEq

/-- doc.rs `MCQOption`. -/
structure MCQOption where
  text : String
  correct : Bool
deriving DecidableEq

/-- doc.rs `MCQBlock`. -/
structure MCQBlock where
  question : String
  options : List MCQOption
  multiple : Bool
deriving DecidableEq

/-- doc.rs `InfoBox`. -/
structure InfoBox where
  kind : String
  text : String
deriving DecidableEq

/-- doc.rs `Node`: the closed set of block-level node variants. -/
inductive Node where
  | paragraph (text : List Char) (spans : Option (List InlineSpan))
  | heading (level : Nat) (text : List Char) (spans : Option (List InlineSpan))
  | table (t : Table)
  | image (src alt : String)
  | media (key content_type : String)
  | formulaInline (tex : String)
  | formulaBlock (tex : String)
  | mcqBlock (b : MCQBlock)
  | infoBox (b : InfoBox)
  | commentAnchor (thread_id : String)
deriving DecidableEq

/-- selection.rs `Anchor`: a text position or a table-cell position. -/
inductive Anchor where
  | text (node_index char_offset : Nat)
  | tableCell (table_node_index row col char_offset : Nat)
deriving DecidableEq

/-- selection.rs `SelectionRange`. -/
structure SelectionRange where
  start : Anchor
  stop : Anchor
deriving DecidableEq

/-- comments.rs `CommentMessage`. -/
structure CommentMessage where
  author : String
  text : String
  ts_ms : Int
deriving DecidableEq

/-- comments.rs `CommentThread`. -/
structure CommentThread where
  id : String
  resolved : Bool
  messages : List CommentMessage
  anchor : Option SelectionRange
deriving DecidableEq

/-- doc.rs `Doc`: ordered nodes plus comment threads. -/
structure Doc where
  nodes : List Node
  threads : List CommentThread
deriving DecidableEq

/-- history.rs `History`: two stacks of full document snapshots
(stack top at the head of the list). -/
structure History where
  undo_stack : List Doc
  redo_stack : List Doc
deriving DecidableEq

/-! ## Selection anchor mapping (selection.rs) -/

/-- selection.rs `map_anchor_row_insert`: a table-cell anchor in the edited
table with `row ≥ at_row` has its row incremented. -/
def map_anchor_row_insert (a : Anchor) (table_node_index at_row : Nat) : Anchor :=
  match a with
  | .tableCell tni r c o =>
      if tni = table_node_index ∧ r ≥ at_row then .tableCell tni (r + 1) c o
      else .tableCell tni r c o
  | a => a

/-- selection.rs `map_anchor_col_insert`. -/
def map_anchor_col_insert (a : Anchor) (table_node_index at_col : Nat) : Anchor :=
  match a with
  | .tableCell tni r c o =>
      if tni = table_node_index ∧ c ≥ at_col then .tableCell tni r (c + 1) o
      else .tableCell tni r c o
  | a => a

/-- selection.rs `map_anchor_row_move`. -/
def map_anchor_row_move (a : Anchor) (table_node_index src dst : Nat) : Anchor :=
  match a with
  | .tableCell tni r c o =>
      if tni ≠ table_node_index then .tableCell tni r c o
      else if r = src then .tableCell tni dst c o
      else if src < dst then
        (if r > src ∧ r ≤ dst then .tableCell tni (r - 1) c o else .tableCell tni r c o)
      else if dst < src then
        (if r ≥ dst ∧ r < src then .tableCell tni (r + 1) c o else .tableCell tni r c o)
      else .tableCell tni r c o
  | a => a

/-- selection.rs `map_anchor_col_move`. -/
def map_anchor_col_move (a : Anchor) (table_node_index src dst : Nat) : Anchor :=
  match a with
  | .tableCell tni r c o =>
      if tni ≠ table_node_index then .tableCell tni r c o
      else if c = src then .tableCell tni r dst o
      else if src < dst then
        (if c > src ∧ c ≤ dst then .tableCell tni r (c - 1) o else .tableCell tni r c o)
      else if dst < src then
        (if c ≥ dst ∧ c < src then .tableCell tni r (c + 1) o else .tableCell tni r c o)
      else .tableCell tni r c o
  | a => a

/-- selection.rs `map_anchor_merge`: an anchor inside the merged rectangle
collapses to the master cell `(min_r, min_c)`. -/
def map_anchor_merge (a : Anchor) (table_node_index sr sc er ec : Nat) : Anchor :=
  match a with
  | .tableCell tni r c o =>
      if tni ≠ table_node_index then .tableCell tni r c o
      else
        if min sr er ≤ r ∧ r ≤ max sr er ∧ min sc ec ≤ c ∧ c ≤ max sc ec then
          .tableCell tni (min sr er) (min sc ec) o
        else .tableCell tni r c o
  | a => a

/-- selection.rs `SelectionRange::map_table_split`: split requires no anchor
adjustment, so the anchor-level mapping is the identity. -/
def map_anchor_split (a : Anchor) (_table_node_index _r _c : Nat) : Anchor := a

/-- The `char_offset` field of an anchor. -/
def Anchor.charOff : Anchor → Nat
  | .text _ o => o
  | .tableCell _ _ _ o => o

/-- The table node index of a table-cell anchor, `none` for a text anchor. -/
def Anchor.tblIdx : Anchor → Option Nat
  | .text _ _ => none
  | .tableCell tni _ _ _ => some tni

/-- Whether the anchor is a text (not table-cell) anchor. -/
def Anchor.isTextAnchor : Anchor → Bool
  | .text _ _ => true
  | .tableCell _ _ _ _ => false

/-- Frame conditions of an anchor mapping for the table at `tni`: char offset
and table index are preserved, text anchors and anchors in other tables are
left entirely unchanged. -/
def framePreserving (f : Anchor → Anchor) (tni : Nat) : Prop :=
  ∀ a : Anchor,
    (f a).charOff = a.charOff ∧
    (f a).tblIdx = a.tblIdx ∧
    (a.isTextAnchor = true → f a = a) ∧
    (a.tblIdx ≠ some tni → f a = a)

/-! ## History (history.rs) -/

/-- history.rs `History::record_before_change`: push a deep copy of the
current document onto the undo stack and clear the redo stack. -/
def History.record_before_change (h : History) (current : Doc) : History :=
  ⟨current :: h.undo_stack, []⟩

/-- history.rs `History::undo`: pop the undo stack, push the current document
onto the redo stack, replace the document; `false` if the stack is empty. -/
def History.undo (h : History) (d : Doc) : History × Doc × Bool :=
  match h.undo_stack with
  | prev :: rest => (⟨rest, d :: h.redo_stack⟩, prev, true)
  | [] => (h, d, false)

/-- history.rs `History::redo`: the mirror image of `undo`. -/
def History.redo (h : History) (d : Doc) : History × Doc × Bool :=
  match h.redo_stack with
  | next :: rest => (⟨d :: h.undo_stack, rest⟩, next, true)
  | [] => (h, d, false)

/-! ## List helpers (models of `Vec` operations) -/

/-- Replace the element at index `i` by `f` of it (`vec[i] = f(vec[i])`);
unchanged when out of range. -/
def listModify (f : α → α) : List α → Nat → List α
  | [], _ => []
  | a :: as, 0 => f a :: as
  | a :: as, n + 1 => a :: listModify f as n

/-- `Vec::remove(i)` (only used with in-range `i`). -/
def listRemoveAt : List α → Nat → List α
  | [], _ => []
  | _ :: as, 0 => as
  | a :: as, n + 1 => a :: listRemoveAt as n

/-- `Vec::insert(i, x)` (only used with `i` clamped to the length). -/
def listInsertAt (x : α) : List α → Nat → List α
  | l, 0 => x :: l
  | [], _ + 1 => [x]
  | a :: as, n + 1 => a :: listInsertAt x as n

/-- Map with the element's index, starting at `n`. -/
def mapWithIdx (f : Nat → α → β) : Nat → List α → List β
  | _, [] => []
  | n, a :: as => f n a :: mapWithIdx f (n + 1) as

/-- `mapM` in the `Option` monad: `none` as soon as `f` fails, modelling a
panic during an iteration. -/
def optMapM (f : α → Option β) : List α → Option (List β)
  | [] => some []
  | a :: as =>
    match f a, optMapM f as with
    | some b, some bs => some (b :: bs)
    | _, _ => none

/-- The inclusive index range `[lo..hi]`, empty when `hi < lo`. -/
def rowRange (lo hi : Nat) : List Nat :=
  (List.range (hi + 1 - lo)).map (· + lo)

/-- Row-major list of the coordinates of the rectangle `[r0..r1] × [c0..c1]`. -/
def rectIdx (r0 c0 r1 c1 : Nat) : List (Nat × Nat) :=
  (rowRange r0 r1).flatMap fun r => (rowRange c0 c1).map fun c => (r, c)

/-- Row-major rectangle coordinates, excluding the top-left (master) cell. -/
def rectIdxExcl (r0 c0 r1 c1 : Nat) : List (Nat × Nat) :=
  (rectIdx r0 c0 r1 c1).filter fun p => p ≠ (r0, c0)

/-! ## Document and table access helpers (ops.rs) -/

/-- Whether a node is a `Table` node. -/
def Node.isTable : Node → Bool
  | .table _ => true
  | _ => false

/-- ops.rs `first_table_indices`: index of the first table node. -/
def firstTableIdx (d : Doc) : Option Nat :=
  d.nodes.findIdx? Node.isTable

/-- ops.rs `has_table`. -/
def hasTable (d : Doc) : Bool :=
  (firstTableIdx d).isSome

/-- The table stored at node index `i`, if that node is a table. -/
def tableAt (d : Doc) (i : Nat) : Option Table :=
  match d.nodes[i]? with
  | some (.table t) => some t
  | _ => none

/-- The first table node of the document (`first_table_mut` as a reader). -/
def firstTable (d : Doc) : Option Table :=
  (firstTableIdx d).bind (tableAt d)

/-- Apply `f` to the first table node (`first_table_mut` as a writer). -/
def modifyFirstTable (d : Doc) (f : Table → Table) : Doc :=
  match firstTableIdx d with
  | none => d
  | some i =>
      ⟨listModify (fun n => match n with | .table t => .table (f t) | n => n) d.nodes i,
       d.threads⟩

/-- The cell at `(r, c)`, `none` when out of range (a direct `t.rows[r].cells[c]`
index in Rust panics exactly when this is `none`). -/
def getCell (t : Table) (r c : Nat) : Option TableCell :=
  (t.rows[r]?).bind fun row => row.cells[c]?

/-- The cell at `(r, c)` with defaults for out-of-range access (only used
under in-range hypotheses). -/
def getCellD (t : Table) (r c : Nat) : TableCell :=
  (t.rows.getD r defaultRow).cells.getD c defaultCell

/-! ## Table operations (ops.rs) -/

/-- ops.rs `delete_row`: no-op without a table or when `at ≥ rows.len()`
(checked before the history snapshot); otherwise snapshot then remove. -/
def delete_row (d : Doc) (at_ : Nat) (h : History) : Doc × History :=
  match firstTable d with
  | none => (d, h)
  | some t =>
      if at_ ≥ t.rows.length then (d, h)
      else
        (modifyFirstTable d fun t => { t with rows := listRemoveAt t.rows at_ },
         h.record_before_change d)

/-- ops.rs `set_paragraph_text`: requires the target node to already be a
paragraph (checked before the snapshot); replaces its text, keeps its spans. -/
def set_paragraph_text (d : Doc) (index : Nat) (text : List Char) (h : History) :
    Doc × History :=
  match d.nodes[index]? with
  | some (.paragraph _ _) =>
      (⟨listModify (fun n => match n with
          | .paragraph _ sp => .paragraph text sp
          | n => n) d.nodes index,
        d.threads⟩,
       h.record_before_change d)
  | _ => (d, h)

/-- Rewrite every cell of the table through `g` applied at the cell's
coordinates. The imperative loops of the Rust table transforms write each
visited cell once, guarded by the row's own length, which is exactly a
coordinate-indexed map over the existing cells. -/
def tableMapCells (g : Nat → Nat → TableCell → TableCell) (t : Table) : Table :=
  { t with rows := mapWithIdx (fun r row =>
      { row with cells := mapWithIdx (g r) 0 row.cells }) 0 t.rows }

/-- The per-cell write of ops.rs `merge_cells`: the master gets the
rectangle's spans, every other cell of the rectangle is marked placeholder,
cells outside are untouched. -/
def mergeWrite (minR maxR minC maxC : Nat) (r c : Nat) (cell : TableCell) :
    TableCell :=
  if r = minR ∧ c = minC then
    { cell with colspan := maxC - minC + 1, rowspan := maxR - minR + 1 }
  else if minR ≤ r ∧ r ≤ maxR ∧ minC ≤ c ∧ c ≤ maxC then
    { cell with placeholder := true }
  else cell

/-- ops.rs `merge_cells`, table part: bounds-checked on both row corners and on
the columns of row `min_r`; sets the master's spans, marks the other cells of
the rectangle placeholder (each write guarded by the row's own length). -/
def opsMergeTable (t : Table) (sr sc er ec : Nat) : Table :=
  if sr ≥ t.rows.length ∨ er ≥ t.rows.length then t
  else
    let minR := min sr er
    let maxR := max sr er
    let minC := min sc ec
    let maxC := max sc ec
    let row0len := (t.rows.getD minR defaultRow).cells.length
    if minC ≥ row0len ∨ maxC ≥ row0len then t
    else tableMapCells (mergeWrite minR maxR minC maxC) t

/-- ops.rs `merge_cells`: snapshots whenever a table exists (before its own
bound checks), then applies the table transform. -/
def ops_merge_cells (d : Doc) (sr sc er ec : Nat) (h : History) : Doc × History :=
  if hasTable d then
    (modifyFirstTable d fun t => opsMergeTable t sr sc er ec, h.record_before_change d)
  else (d, h)

/-- The per-cell write of ops.rs `split_cell`: the target cell is reset to
1×1, and every cell of the rectangle it previously covered gets its
placeholder flag cleared. -/
def splitWrite (r c rs cs : Nat) (rr cc : Nat) (x : TableCell) : TableCell :=
  let x' := if rr = r ∧ cc = c then { x with rowspan := 1, colspan := 1 } else x
  if r ≤ rr ∧ rr < r + rs ∧ c ≤ cc ∧ cc < c + cs then
    { x' with placeholder := false }
  else x'

/-- ops.rs `split_cell`, table part: reads the target cell's spans, resets it
to 1×1, clears the placeholder flag over the previously covered rectangle
(each access guarded by the row's own length). -/
def opsSplitTable (t : Table) (r c : Nat) : Table :=
  if r ≥ t.rows.length then t
  else
    let rowr := t.rows.getD r defaultRow
    if c ≥ rowr.cells.length then t
    else
      let cell := rowr.cells.getD c defaultCell
      tableMapCells (splitWrite r c (max cell.rowspan 1) (max cell.colspan 1)) t

/-- ops.rs `split_cell`: snapshots whenever a table exists, then applies the
table transform. -/
def ops_split_cell (d : Doc) (r c : Nat) (h : History) : Doc × History :=
  if hasTable d then
    (modifyFirstTable d fun t => opsSplitTable t r c, h.record_before_change d)
  else (d, h)

/-! ## Inline style engine (ops.rs `set_text_style`) -/

/-- The field-by-field overlay of an incoming style delta onto a span's style:
boolean flags are OR'd in, scalar fields overwritten only when the delta has
them; `code` and `link` are never transferred by `set_text_style`. -/
def mergeStyle (base delta : InlineStyle) : InlineStyle :=
  { base with
    bold := base.bold || delta.bold
    italic := base.italic || delta.italic
    underline := base.underline || delta.underline
    color := if delta.color.isSome then delta.color else base.color
    highlight := if delta.highlight.isSome then delta.highlight else base.highlight
    font_size_px := if delta.font_size_px.isSome then delta.font_size_px
      else base.font_size_px }

/-- The span-rebuilding walk of `set_text_style`: for each span compute its
overlap with `[s, e)` relative to the running offset `pos`; pass it through,
or split it into up to three pieces, dropping zero-length ones. -/
def restyleGo (delta : InlineStyle) (s e : Nat) : Nat → List InlineSpan → List InlineSpan
  | _, [] => []
  | pos, sp :: rest =>
      let len := sp.text.length
      let pieces :=
        if e ≤ pos ∨ s ≥ pos + len then [sp]
        else
          let ls := min (s - pos) len
          let le := min (e - pos) len
          (if 0 < ls then [⟨sp.text.take ls, sp.style⟩] else []) ++
          (if ls < le then [⟨(sp.text.take le).drop ls, mergeStyle sp.style delta⟩] else []) ++
          (if le < len then [⟨sp.text.drop le, sp.style⟩] else [])
      pieces ++ restyleGo delta s e (pos + len) rest

/-- The span list `set_text_style` starts from: the stored spans, or — when
none exist — a single default-styled span covering the whole text (no span
at all for empty text). -/
def synthSpans (text : List Char) (spans : Option (List InlineSpan)) :
    List InlineSpan :=
  match spans with
  | some sp => sp
  | none => if text = [] then [] else [⟨text, defaultStyle⟩]

/-- `set_text_style` on one node's text/spans: clamp the range, synthesize a
single default-styled span when none exist, rebuild the span list, and store
`none` when the result is empty. -/
def applyStyleRange (text : List Char) (spans : Option (List InlineSpan))
    (start stop : Nat) (delta : InlineStyle) : Option (List InlineSpan) :=
  let total := text.length
  let s := min start total
  let e := max (min stop total) s
  let acc := restyleGo delta s e 0 (synthSpans text spans)
  if acc = [] then none else some acc

/-- ops.rs `set_text_style`: only a `Paragraph` node is restyled (any other
variant, including `Heading`, leaves document and history untouched); the
snapshot happens once the paragraph is found. -/
def set_text_style (d : Doc) (index start stop : Nat) (delta : InlineStyle)
    (h : History) : Doc × History :=
  match d.nodes[index]? with
  | some (.paragraph _ _) =>
      (⟨listModify (fun n => match n with
          | .paragraph tx sp => .paragraph tx (applyStyleRange tx sp start stop delta)
          | n => n) d.nodes index,
        d.threads⟩,
       h.record_before_change d)
  | _ => (d, h)

/-! ## `EditorCore::merge_cells` (lib.rs) -/

/-- One step of the text accumulation of `EditorCore::merge_cells`: an empty
cell text is skipped, otherwise it is appended with a separating space when
the accumulator is non-empty. -/
def joinStep (acc s : List Char) : List Char :=
  if s = [] then acc else if acc = [] then s else acc ++ ' ' :: s

/-- The text accumulation of `EditorCore::merge_cells`: fold the cell texts,
skipping empty ones and inserting a single space between kept ones. -/
def joinSkipEmpty (texts : List (List Char)) : List Char :=
  texts.foldl joinStep []

/-- The per-cell write of `EditorCore::merge_cells`: the master gets the
joined text appended (space-separated, only when the joined text of the other
cells is non-empty) and the rectangle's spans; every other cell of the
rectangle is marked placeholder with its text cleared. -/
def ecWrite (r0 c0 r1 c1 : Nat) (joined : List Char) (r c : Nat)
    (cell : TableCell) : TableCell :=
  if r = r0 ∧ c = c0 then
    { cell with
      text := if joined = [] then cell.text
        else if cell.text = [] then joined
        else cell.text ++ ' ' :: joined
      rowspan := r1 - r0 + 1
      colspan := c1 - c0 + 1 }
  else if r0 ≤ r ∧ r ≤ r1 ∧ c0 ≤ c ∧ c ≤ c1 then
    { cell with placeholder := true, text := [] }
  else cell

/-- lib.rs `EditorCore::merge_cells`, table part. Only the top-left corner is
bounds-checked; the text-collection loop then indexes every other cell of the
rectangle directly, so an out-of-range bottom-right corner panics (`none`).
The Rust placeholder loop revisits exactly the indices the collection loop
already visited, hence the write pass is total here. -/
def ecMergeTable (t : Table) (sr sc er ec : Nat) : Option Table :=
  let r0 := min sr er
  let c0 := min sc ec
  let r1 := max er sr
  let c1 := max ec sc
  if r0 ≥ t.rows.length then some t
  else if c0 ≥ (t.rows.getD r0 defaultRow).cells.length then some t
  else
    match optMapM (fun p => getCell t p.1 p.2) (rectIdxExcl r0 c0 r1 c1) with
    | none => none
    | some cells =>
        some (tableMapCells (ecWrite r0 c0 r1 c1 (joinSkipEmpty (cells.map (·.text)))) t)

/-- lib.rs `EditorCore::merge_cells`: snapshot first, then transform the first
table; `none` models the panic of the unchecked rectangle walk. -/
def EditorCore_merge_cells (d : Doc) (sr sc er ec : Nat) (h : History) :
    Option (Doc × History) :=
  let h' := h.record_before_change d
  match firstTableIdx d with
  | none => some (d, h')
  | some i =>
      match tableAt d i with
      | none => some (d, h')
      | some t =>
          (ecMergeTable t sr sc er ec).map fun t' =>
            (⟨listModify (fun _ => .table t') d.nodes i, d.threads⟩, h')

/-! ## Concrete documents and spec-side comparison definitions -/

/-- A style delta that only sets the bold flag. -/
def boldDelta : InlineStyle := { defaultStyle with bold := true }

/-- A document whose only node is a 1×1 table of default cells. -/
def docTable1x1 : Doc :=
  ⟨[.table ⟨[⟨[defaultCell], none⟩], false, false, [120]⟩], []⟩

/-- A 2×2 table whose cell (0,0) has text "A", the other cells are default
(empty text). -/
def tableA2x2 : Table :=
  ⟨[⟨[{ defaultCell with text := ['A'] }, defaultCell], none⟩,
    ⟨[defaultCell, defaultCell], none⟩],
   false, false, [120, 120]⟩

/-- A document whose only node is the table `tableA2x2`. -/
def docTable2x2A : Doc := ⟨[.table tableA2x2], []⟩

/-- A 2×2 table of default cells. -/
def table2x2 : Table :=
  ⟨[⟨[defaultCell, defaultCell], none⟩, ⟨[defaultCell, defaultCell], none⟩],
   false, false, [120, 120]⟩

/-- A document whose only node is a level-1 heading with text "Hi" and no
spans. -/
def docHeadingHi : Doc := ⟨[.heading 1 ['H', 'i'] none], []⟩

/-- A document whose only node is a paragraph with text "Hi" and no spans. -/
def docParaHi : Doc := ⟨[.paragraph ['H', 'i'] none], []⟩

/-- A document whose only node is a paragraph with text "ab" and no spans. -/
def docParaAb : Doc := ⟨[.paragraph ['a', 'b'] none], []⟩

/-- Modelled from the spec's words for the refinement comparison of C1:
the space-joined concatenation of a list of texts, inserting one space
between every two consecutive texts (empty or not). -/
def joinAllWithSpaces : List (List Char) → List Char
  | [] => []
  | [t] => t
  | t :: rest => t ++ ' ' :: joinAllWithSpaces rest

/-- The standard array-move index map (remove the element at `src`, reinsert
it at `dst`): `src` goes to `dst`, positions in the shifted segment — which
includes `dst` itself — move one towards `src`, everything else is fixed. -/
def moveIndexMap (src dst i : Nat) : Nat :=
  if i = src then dst
  else if src < dst ∧ src < i ∧ i ≤ dst then i - 1
  else if dst < src ∧ dst ≤ i ∧ i < src then i + 1
  else i

/-- The concatenation of the texts of a span list. -/
def spansText (l : List InlineSpan) : List Char :=
  l.foldr (fun sp acc => sp.text ++ acc) []

/-- The concatenation of the texts of an optional span list (a node storing
`none` encodes the empty span list). -/
def spansTextOpt : Option (List InlineSpan) → List Char
  | none => []
  | some l => spansText l

/-! ## Theorems for the claims -/

theorem spansText_append (a b : List InlineSpan) :
    spansText (a ++ b) = spansText a ++ spansText b := by
  induction a with
  | nil => rfl
  | cons x xs ih => simp [spansText] at ih ⊢; simp [ih]

theorem spansText_if_single (c : Prop) [Decidable c] (tx : List Char)
    (st : InlineStyle) (h : ¬ c → tx = []) :
    spansText (if c then [⟨tx, st⟩] else []) = tx := by
  by_cases hc : c
  · simp [hc, spansText]
  · simp [hc, spansText, h hc]

theorem listModify_getElem (f : α → α) (l : List α) (i : Nat) :
    (listModify f l i)[i]? = (l[i]?).map f := by
  induction l generalizing i with
  | nil => simp [listModify]
  | cons a as ih =>
      cases i with
      | zero => simp [listModify]
      | succ n => simp [listModify, ih]

theorem mapWithIdx_length (f : Nat → α → β) :
    ∀ (n : Nat) (l : List α), (mapWithIdx f n l).length = l.length := by
  intro n l
  induction l generalizing n with
  | nil => rfl
  | cons a as ih => simp [mapWithIdx, ih]

theorem mapWithIdx_getElem (f : Nat → α → β) :
    ∀ (n i : Nat) (l : List α), (mapWithIdx f n l)[i]? = (l[i]?).map (f (n + i)) := by
  intro n i l
  induction l generalizing n i with
  | nil => simp [mapWithIdx]
  | cons a as ih =>
      cases i with
      | zero => simp [mapWithIdx]
      | succ m =>
          have harith : n + 1 + m = n + (m + 1) := by omega
          simp only [mapWithIdx, List.getElem?_cons_succ, ih (n + 1) m, harith]

theorem mapWithIdx_getD (f : Nat → α → β) (l : List α) (i : Nat) (d : α) (d' : β)
    (h : i < l.length) :
    (mapWithIdx f 0 l).getD i d' = f i (l.getD i d) := by
  have h2 : i < (mapWithIdx f 0 l).length := by rw [mapWithIdx_length]; exact h
  rw [List.getD_eq_getElem _ _ h2, List.getD_eq_getElem _ _ h]
  have hq := mapWithIdx_getElem f 0 i l
  rw [List.getElem?_eq_getElem h2, List.getElem?_eq_getElem h] at hq
  simpa using hq

theorem tableMapCells_rows_length (g : Nat → Nat → TableCell → TableCell)
    (t : Table) : (tableMapCells g t).rows.length = t.rows.length := by
  simp [tableMapCells, mapWithIdx_length]

theorem tableMapCells_cells_length (g : Nat → Nat → TableCell → TableCell)
    (t : Table) (r : Nat) :
    ((tableMapCells g t).rows.getD r defaultRow).cells.length
      = (t.rows.getD r defaultRow).cells.length := by
  by_cases h : r < t.rows.length
  · show ((mapWithIdx _ 0 t.rows).getD r defaultRow).cells.length = _
    rw [mapWithIdx_getD _ _ r defaultRow defaultRow h]
    simp [mapWithIdx_length]
  · have h1 : t.rows.length ≤ r := Nat.not_lt.mp h
    have h2 : (tableMapCells g t).rows.length ≤ r := by
      rw [tableMapCells_rows_length]; exact h1
    rw [List.getD_eq_default _ _ h1, List.getD_eq_default _ _ h2]

theorem tableMapCells_getCellD (g : Nat → Nat → TableCell → TableCell)
    (t : Table) (r c : Nat) (hr : r < t.rows.length)
    (hc : c < (t.rows.getD r defaultRow).cells.length) :
    getCellD (tableMapCells g t) r c = g r c (getCellD t r c) := by
  unfold getCellD
  show ((mapWithIdx _ 0 t.rows).getD r defaultRow).cells.getD c defaultCell = _
  rw [mapWithIdx_getD _ _ r defaultRow defaultRow hr]
  show (mapWithIdx (g r) 0 (t.rows.getD r defaultRow).cells).getD c defaultCell = _
  rw [mapWithIdx_getD _ _ c defaultCell defaultCell hc]

theorem mem_rowRange {lo hi r : Nat} : r ∈ rowRange lo hi ↔ lo ≤ r ∧ r ≤ hi := by
  simp only [rowRange, List.mem_map, List.mem_range]
  constructor
  · rintro ⟨k, hk, rfl⟩; omega
  · rintro ⟨h1, h2⟩; exact ⟨r - lo, by omega, by omega⟩

theorem mem_rectIdx {r0 c0 r1 c1 : Nat} {p : Nat × Nat} :
    p ∈ rectIdx r0 c0 r1 c1 ↔ (r0 ≤ p.1 ∧ p.1 ≤ r1) ∧ (c0 ≤ p.2 ∧ p.2 ≤ c1) := by
  obtain ⟨pr, pc⟩ := p
  simp only [rectIdx, List.mem_flatMap, List.mem_map, mem_rowRange, Prod.mk.injEq]
  constructor
  · rintro ⟨r, hr, c, hc, rfl, rfl⟩; exact ⟨hr, hc⟩
  · rintro ⟨hr, hc⟩; exact ⟨pr, hr, pc, hc, rfl, rfl⟩

theorem optMapM_eq_map (f : α → Option β) (g : α → β) :
    ∀ l : List α, (∀ a ∈ l, f a = some (g a)) → optMapM f l = some (l.map g) := by
  intro l
  induction l with
  | nil => intro _; rfl
  | cons a as ih =>
      intro hall
      have ha := hall a (List.mem_cons_self a as)
      have has := ih fun x hx => hall x (List.mem_cons_of_mem a hx)
      simp [optMapM, ha, has]

theorem mem_rectIdxExcl {r0 c0 r1 c1 : Nat} {p : Nat × Nat} :
    p ∈ rectIdxExcl r0 c0 r1 c1 ↔
      ((r0 ≤ p.1 ∧ p.1 ≤ r1) ∧ (c0 ≤ p.2 ∧ p.2 ≤ c1)) ∧ p ≠ (r0, c0) := by
  simp [rectIdxExcl, List.mem_filter, mem_rectIdx]

theorem getCell_eq_getCellD (t : Table) (r c : Nat) (hr : r < t.rows.length)
    (hc : c < (t.rows.getD r defaultRow).cells.length) :
    getCell t r c = some (getCellD t r c) := by
  unfold getCell getCellD
  have h1 : t.rows.getD r defaultRow = t.rows[r] := List.getD_eq_getElem _ _ hr
  have hc' : c < t.rows[r].cells.length := by rw [← h1]; exact hc
  rw [List.getElem?_eq_getElem hr, h1, Option.some_bind,
    List.getElem?_eq_getElem hc', List.getD_eq_getElem _ _ hc']

theorem joinSkipEmpty_foldl (l : List (List Char)) : ∀ acc : List Char,
    l.foldl joinStep acc =
      if l.foldl joinStep [] = [] then acc
      else if acc = [] then l.foldl joinStep []
      else acc ++ ' ' :: l.foldl joinStep [] := by
  induction l with
  | nil => intro acc; simp
  | cons s rest ih =>
      intro acc
      simp only [List.foldl_cons]
      rw [ih (joinStep acc s), ih (joinStep [] s)]
      by_cases hs : s = [] <;> by_cases hacc : acc = [] <;>
        by_cases hrest : rest.foldl joinStep [] = [] <;>
        simp [joinStep, hs, hacc, hrest]

theorem joinSkipEmpty_cons (x : List Char) (l : List (List Char)) :
    joinSkipEmpty (x :: l) =
      if joinSkipEmpty l = [] then x
      else if x = [] then joinSkipEmpty l
      else x ++ ' ' :: joinSkipEmpty l := by
  unfold joinSkipEmpty
  simp only [List.foldl_cons]
  rw [joinSkipEmpty_foldl l (joinStep [] x)]
  by_cases hx : x = [] <;> by_cases hl : l.foldl joinStep [] = [] <;>
    simp [joinStep, hx, hl]

theorem restyleGo_spansText (delta : InlineStyle) (s e : Nat) (hse : s ≤ e)
    (l : List InlineSpan) : ∀ pos : Nat,
    spansText (restyleGo delta s e pos l) = spansText l := by
  induction l with
  | nil => intro pos; rfl
  | cons sp rest ih =>
      intro pos
      simp only [restyleGo]
      rw [spansText_append, ih]
      have hgoal : spansText (sp :: rest) = sp.text ++ spansText rest := by
        simp [spansText]
      rw [hgoal]
      congr 1
      by_cases hov : e ≤ pos ∨ s ≥ pos + sp.text.length
      · simp [hov, spansText]
      · simp only [hov, if_false]
        rw [spansText_append, spansText_append]
        rw [spansText_if_single _ _ _ (fun hns => by
          have : min (s - pos) sp.text.length = 0 := by omega
          simp [this])]
        rw [spansText_if_single _ _ _ (fun hns => by
          refine List.drop_eq_nil_of_le ?_
          have := List.length_take (min (e - pos) sp.text.length) sp.text
          omega)]
        rw [spansText_if_single _ _ _ (fun hns => by
          refine List.drop_eq_nil_of_le ?_
          omega)]
        have h1 : min (s - pos) sp.text.length ≤ min (e - pos) sp.text.length := by
          omega
        have h2 : (sp.text.take (min (e - pos) sp.text.length)).take
            (min (s - pos) sp.text.length) = sp.text.take (min (s - pos) sp.text.length) := by
          rw [List.take_take, Nat.min_eq_left h1]
        rw [← h2, List.take_append_drop, List.take_append_drop]

/-- C7: inserting a row (resp. column) at index `k` increments the row
(resp. col) of a table-cell anchor of that table exactly when it is `≥ k`,
and leaves anchors with row (resp. col) `< k` unchanged. -/
theorem claim_C7 (tni r c o tni' k : Nat) :
    map_anchor_row_insert (.tableCell tni r c o) tni' k
      = .tableCell tni (if tni = tni' ∧ k ≤ r then r + 1 else r) c o
  ∧ map_anchor_col_insert (.tableCell tni r c o) tni' k
      = .tableCell tni r (if tni = tni' ∧ k ≤ c then c + 1 else c) o := by
  constructor
  · by_cases hc : tni = tni' ∧ k ≤ r <;> simp [map_anchor_row_insert, hc]
  · by_cases hc : tni = tni' ∧ k ≤ c <;> simp [map_anchor_col_insert, hc]

/-- C8 counterexample: moving row 1 to 3, the anchor with row = 3 is neither
at the source nor strictly between 1 and 3, so the claim says it is left
unchanged; the code shifts it to row 2. -/
theorem claim_C8_counterexample :
    map_anchor_row_move (.tableCell 0 3 0 0) 0 1 3 = .tableCell 0 2 0 0 ∧
    map_anchor_row_move (.tableCell 0 3 0 0) 0 1 3 ≠ .tableCell 0 3 0 0 := by
  decide

/-- C8 (amended): the row/column move mapping realizes the standard
array-move index map, under which the shifted segment includes the
destination index `dst` itself (`src < row ≤ dst` shifts down by one when
`src < dst`, `dst ≤ row < src` shifts up by one when `dst < src`); anchors
of other tables are unchanged. -/
theorem claim_C8_amended (tni r c o tni' src dst : Nat) :
    map_anchor_row_move (.tableCell tni r c o) tni' src dst
      = .tableCell tni (if tni = tni' then moveIndexMap src dst r else r) c o
  ∧ map_anchor_col_move (.tableCell tni r c o) tni' src dst
      = .tableCell tni r (if tni = tni' then moveIndexMap src dst c else c) o := by
  constructor
  · simp only [map_anchor_row_move, moveIndexMap, ne_eq]
    split_ifs <;> first
      | rfl
      | (simp_all; try omega)
  · simp only [map_anchor_col_move, moveIndexMap, ne_eq]
    split_ifs <;> first
      | rfl
      | (simp_all; try omega)

/-- C10: every anchor mapping function (row/col insert, row/col move, merge,
split) preserves `char_offset` and the table node index, never modifies a
text anchor, and leaves anchors of other tables entirely unchanged. -/
theorem claim_C10 (tni k src dst sr sc er ec r c : Nat) :
    framePreserving (map_anchor_row_insert · tni k) tni ∧
    framePreserving (map_anchor_col_insert · tni k) tni ∧
    framePreserving (map_anchor_row_move · tni src dst) tni ∧
    framePreserving (map_anchor_col_move · tni src dst) tni ∧
    framePreserving (map_anchor_merge · tni sr sc er ec) tni ∧
    framePreserving (map_anchor_split · tni r c) tni := by
  refine ⟨?_, ?_, ?_, ?_, ?_, ?_⟩ <;> intro a <;> cases a <;>
    simp [framePreserving, map_anchor_row_insert, map_anchor_col_insert,
      map_anchor_row_move, map_anchor_col_move, map_anchor_merge,
      map_anchor_split, Anchor.charOff, Anchor.tblIdx, Anchor.isTextAnchor] <;>
    split_ifs <;> simp_all

/-- Witness for C10 at concrete anchors: a text anchor is untouched by the
merge mapping, and a row move keeps the char offset of a cell anchor. -/
theorem claim_C10_witness :
    map_anchor_merge (.text 2 7) 0 0 0 1 1 = .text 2 7 ∧
    (map_anchor_row_move (.tableCell 5 1 1 9) 0 1 3).charOff = 9 :=
  ⟨((claim_C10 0 0 1 3 0 0 1 1 0 0).2.2.2.2.1 (.text 2 7)).2.2.1 rfl,
   (((claim_C10 0 0 1 3 0 0 1 1 0 0).2.2.1 (.tableCell 5 1 1 9)).1).trans rfl⟩

/-- C3: recording a snapshot clears the redo stack; undo after a recorded
mutation restores the pre-mutation document and returns true; redo then
restores the mutated document and returns true; undo (resp. redo) on an
empty stack returns false and changes nothing. -/
theorem claim_C3 (h : History) (d dMut : Doc) (u r : List Doc) :
    (h.record_before_change d).redo_stack = [] ∧
    History.undo (h.record_before_change d) dMut = (⟨h.undo_stack, [dMut]⟩, d, true) ∧
    History.redo ⟨h.undo_stack, [dMut]⟩ d = (⟨d :: h.undo_stack, []⟩, dMut, true) ∧
    History.undo ⟨[], r⟩ d = (⟨[], r⟩, d, false) ∧
    History.redo ⟨u, []⟩ d = (⟨u, []⟩, d, false) :=
  ⟨rfl, rfl, rfl, rfl, rfl⟩

/-- C2 counterexample: `delete_row` with an out-of-bounds index returns
before the history snapshot, so nothing is pushed onto the undo stack,
contradicting the claim that every mutating call snapshots first. -/
theorem claim_C2_counterexample :
    delete_row docTable1x1 5 ⟨[], []⟩ = (docTable1x1, ⟨[], []⟩) ∧
    (delete_row docTable1x1 5 ⟨[], []⟩).2.undo_stack ≠ [docTable1x1] := by
  decide

/-- C2 (amended): `merge_cells` snapshots whenever a table exists, even if
its own bound checks then make it a no-op; but `delete_row` and
`set_paragraph_text` perform their bound/variant checks first and skip the
snapshot entirely when they no-op. -/
theorem claim_C2_amended (d : Doc) (at_ i sr sc er ec : Nat) (txt : List Char)
    (h : History) :
    ((delete_row d at_ h).2 =
      match firstTable d with
      | some t => if at_ < t.rows.length then h.record_before_change d else h
      | none => h) ∧
    ((set_paragraph_text d i txt h).2 =
      match d.nodes[i]? with
      | some (.paragraph _ _) => h.record_before_change d
      | _ => h) ∧
    ((ops_merge_cells d sr sc er ec h).2 =
      if hasTable d then h.record_before_change d else h) := by
  refine ⟨?_, ?_, ?_⟩
  · cases hft : firstTable d with
    | none => simp [delete_row, hft]
    | some t =>
        rcases Nat.lt_or_ge at_ t.rows.length with hlt | hge
        · simp [delete_row, hft, hlt, Nat.not_le.mpr hlt]
        · simp [delete_row, hft, hge, Nat.not_lt.mpr hge]
  · cases hn : d.nodes[i]? with
    | none => simp [set_paragraph_text, hn]
    | some n => cases n <;> simp [set_paragraph_text, hn]
  · by_cases hb : hasTable d = true <;> simp [ops_merge_cells, hb]

/-- C6: the public `EditorCore::merge_cells` bounds-checks only the top-left
corner; with a 1×1 table and corners (0,0)-(1,1) its rectangle walk indexes
row 1 out of bounds and panics (modelled as `none`), while the guarded
ops-level `merge_cells` silently leaves the document unchanged as the claim
requires. -/
theorem claim_C6_panics :
    EditorCore_merge_cells docTable1x1 0 0 1 1 ⟨[], []⟩ = none ∧
    (ops_merge_cells docTable1x1 0 0 1 1 ⟨[], []⟩).1 = docTable1x1 := by
  decide

/-- C9 counterexample: on a heading node `set_text_style` changes nothing
(document and history are returned untouched), while on a paragraph with the
same text and range it does restyle — so headings are not decomposed
"exactly as for a Paragraph node". -/
theorem claim_C9_counterexample :
    set_text_style docHeadingHi 0 0 2 boldDelta ⟨[], []⟩ = (docHeadingHi, ⟨[], []⟩) ∧
    (set_text_style docParaHi 0 0 2 boldDelta ⟨[], []⟩).1 ≠ docParaHi := by
  decide

/-- C9 (amended): the inline style engine restyles only paragraph nodes (and
table cells via the cell variant); when the addressed node is a `Heading`,
`set_text_style` is a no-op that leaves both document and history unchanged. -/
theorem claim_C9_amended (d : Doc) (i s e : Nat) (delta : InlineStyle) (h : History)
    (lvl : Nat) (txt : List Char) (sp : Option (List InlineSpan))
    (hn : d.nodes[i]? = some (.heading lvl txt sp)) :
    set_text_style d i s e delta h = (d, h) := by
  simp [set_text_style, hn]

/-- Witness for C9 at a concrete heading document. -/
theorem claim_C9_witness :
    set_text_style docHeadingHi 0 5 9 boldDelta ⟨[], []⟩ = (docHeadingHi, ⟨[], []⟩) :=
  claim_C9_amended docHeadingHi 0 5 9 boldDelta ⟨[], []⟩ 1 ['H', 'i'] none (by decide)

/-- C5: for a paragraph node whose stored spans (when present) concatenate to
its plain text, applying an inline style to any character range with any
delta produces a span list that still concatenates to exactly the original
plain text. -/
theorem claim_C5 (d : Doc) (index start stop : Nat) (delta : InlineStyle)
    (h : History) (text : List Char) (spans : Option (List InlineSpan))
    (hn : d.nodes[index]? = some (.paragraph text spans))
    (hcoh : ∀ sp, spans = some sp → spansText sp = text) :
    ∃ spans', (set_text_style d index start stop delta h).1.nodes[index]? =
        some (.paragraph text spans') ∧ spansTextOpt spans' = text := by
  refine ⟨applyStyleRange text spans start stop delta, ?_, ?_⟩
  · simp [set_text_style, hn, listModify_getElem]
  · have hse : min start text.length ≤ max (min stop text.length) (min start text.length) :=
      Nat.le_max_right _ _
    have hinit : spansText (synthSpans text spans) = text := by
      cases spans with
      | some sp => exact hcoh sp rfl
      | none =>
          by_cases ht : text = []
          · simp [synthSpans, ht, spansText]
          · simp [synthSpans, ht, spansText]
    have hacc := restyleGo_spansText delta _ _ hse (synthSpans text spans) 0
    rw [hinit] at hacc
    simp only [applyStyleRange]
    split
    · rename_i hemp
      rw [hemp] at hacc
      simp [spansTextOpt, spansText] at hacc
      simp [spansTextOpt, ← hacc]
    · simpa [spansTextOpt] using hacc

/-- C4: on a rectangle whose cells all start with colspan = rowspan = 1 and
placeholder = false, merging the rectangle and then splitting at its top-left
corner restores the original colspan, rowspan and placeholder value of every
cell in the rectangle. -/
theorem claim_C4 (t : Table) (sr sc er ec : Nat)
    (hrow : max sr er < t.rows.length)
    (hcols : ∀ r ∈ rowRange (min sr er) (max sr er),
      max sc ec < (t.rows.getD r defaultRow).cells.length)
    (hinit : ∀ p ∈ rectIdx (min sr er) (min sc ec) (max sr er) (max sc ec),
      (getCellD t p.1 p.2).colspan = 1 ∧ (getCellD t p.1 p.2).rowspan = 1 ∧
      (getCellD t p.1 p.2).placeholder = false) :
    ∀ p ∈ rectIdx (min sr er) (min sc ec) (max sr er) (max sc ec),
      (getCellD (opsSplitTable (opsMergeTable t sr sc er ec) (min sr er) (min sc ec))
          p.1 p.2).colspan = (getCellD t p.1 p.2).colspan ∧
      (getCellD (opsSplitTable (opsMergeTable t sr sc er ec) (min sr er) (min sc ec))
          p.1 p.2).rowspan = (getCellD t p.1 p.2).rowspan ∧
      (getCellD (opsSplitTable (opsMergeTable t sr sc er ec) (min sr er) (min sc ec))
          p.1 p.2).placeholder = (getCellD t p.1 p.2).placeholder := by
  intro p hp
  obtain ⟨⟨hpr1, hpr2⟩, hpc1, hpc2⟩ := mem_rectIdx.mp hp
  have hminmaxr : min sr er ≤ max sr er := min_le_max
  have hminmaxc : min sc ec ≤ max sc ec := min_le_max
  have hc0 : max sc ec < (t.rows.getD (min sr er) defaultRow).cells.length :=
    hcols (min sr er) (mem_rowRange.mpr ⟨le_refl _, hminmaxr⟩)
  have hmergeEq : opsMergeTable t sr sc er ec
      = tableMapCells (mergeWrite (min sr er) (max sr er) (min sc ec) (max sc ec)) t := by
    simp only [opsMergeTable]
    rw [if_neg (by omega), if_neg (by omega)]
  have hr0 : min sr er < t.rows.length := by omega
  have hc0' : min sc ec < (t.rows.getD (min sr er) defaultRow).cells.length := by omega
  have hmaster : getCellD (opsMergeTable t sr sc er ec) (min sr er) (min sc ec)
      = { getCellD t (min sr er) (min sc ec) with
          colspan := max sc ec - min sc ec + 1, rowspan := max sr er - min sr er + 1 } := by
    rw [hmergeEq, tableMapCells_getCellD _ _ _ _ hr0 hc0']
    simp [mergeWrite]
  have hlenM : (opsMergeTable t sr sc er ec).rows.length = t.rows.length := by
    rw [hmergeEq, tableMapCells_rows_length]
  have hclenM : ∀ r : Nat,
      ((opsMergeTable t sr sc er ec).rows.getD r defaultRow).cells.length
        = (t.rows.getD r defaultRow).cells.length := by
    intro r; rw [hmergeEq, tableMapCells_cells_length]
  have hcellRead : ((opsMergeTable t sr sc er ec).rows.getD (min sr er)
        defaultRow).cells.getD (min sc ec) defaultCell
      = { getCellD t (min sr er) (min sc ec) with
          colspan := max sc ec - min sc ec + 1, rowspan := max sr er - min sr er + 1 } :=
    hmaster
  have hsplitEq : opsSplitTable (opsMergeTable t sr sc er ec) (min sr er) (min sc ec)
      = tableMapCells (splitWrite (min sr er) (min sc ec)
          (max sr er - min sr er + 1) (max sc ec - min sc ec + 1))
          (opsMergeTable t sr sc er ec) := by
    have h1 : ¬ (min sr er ≥ (opsMergeTable t sr sc er ec).rows.length) := by
      rw [hlenM]; omega
    have h2 : ¬ (min sc ec ≥ ((opsMergeTable t sr sc er ec).rows.getD (min sr er)
        defaultRow).cells.length) := by
      rw [hclenM]; omega
    have hm1 : (1 : Nat) ≤ max sr er - min sr er + 1 := by omega
    have hm2 : (1 : Nat) ≤ max sc ec - min sc ec + 1 := by omega
    simp only [opsSplitTable]
    rw [if_neg h1, if_neg h2, hcellRead]
    rw [Nat.max_eq_left hm1, Nat.max_eq_left hm2]
  have hfr : p.1 < t.rows.length := by omega
  have hfc : p.2 < (t.rows.getD p.1 defaultRow).cells.length := by
    have := hcols p.1 (mem_rowRange.mpr ⟨hpr1, hpr2⟩)
    omega
  have hbr : p.1 < (opsMergeTable t sr sc er ec).rows.length := by
    rw [hlenM]; omega
  have hbc : p.2 < ((opsMergeTable t sr sc er ec).rows.getD p.1
      defaultRow).cells.length := by
    rw [hclenM p.1]; omega
  have hfinal : getCellD (opsSplitTable (opsMergeTable t sr sc er ec)
        (min sr er) (min sc ec)) p.1 p.2
      = splitWrite (min sr er) (min sc ec)
          (max sr er - min sr er + 1) (max sc ec - min sc ec + 1) p.1 p.2
          (mergeWrite (min sr er) (max sr er) (min sc ec) (max sc ec) p.1 p.2
            (getCellD t p.1 p.2)) := by
    rw [hsplitEq, tableMapCells_getCellD _ _ _ _ hbr hbc]
    rw [hmergeEq, tableMapCells_getCellD _ _ _ _ hfr hfc]
  rw [hfinal]
  obtain ⟨hcol1, hrow1, hpl⟩ := hinit p hp
  clear hp hinit hcols hmergeEq hsplitEq hmaster hcellRead hfinal hlenM hclenM
    hbr hbc hfr hfc hc0 hc0' hrow
  simp only [mergeWrite, splitWrite]
  split_ifs <;> first
    | (simp_all; done)
    | (simp_all; omega)

/-- Witness for C4: merging the whole of a 2×2 default table and splitting at
(0,0) restores colspan/rowspan/placeholder of cell (1,1). -/
theorem claim_C4_witness :
    (getCellD (opsSplitTable (opsMergeTable table2x2 0 0 1 1) (min 0 1) (min 0 1))
        1 1).colspan = (getCellD table2x2 1 1).colspan ∧
    (getCellD (opsSplitTable (opsMergeTable table2x2 0 0 1 1) (min 0 1) (min 0 1))
        1 1).rowspan = (getCellD table2x2 1 1).rowspan ∧
    (getCellD (opsSplitTable (opsMergeTable table2x2 0 0 1 1) (min 0 1) (min 0 1))
        1 1).placeholder = (getCellD table2x2 1 1).placeholder :=
  claim_C4 table2x2 0 0 1 1 (by decide) (by decide) (by decide) (1, 1) (by decide)

/-- Witness for C5: restyling the first character of the paragraph "ab"
(no pre-existing spans) keeps the span concatenation equal to "ab". -/
theorem claim_C5_witness :
    ∃ spans', (set_text_style docParaAb 0 0 1 boldDelta ⟨[], []⟩).1.nodes[0]? =
        some (.paragraph ['a', 'b'] spans') ∧ spansTextOpt spans' = ['a', 'b'] :=
  claim_C5 docParaAb 0 0 1 boldDelta ⟨[], []⟩ ['a', 'b'] none (by decide)
    (fun sp hsp => Option.noConfusion hsp)

/-- C1 (amended): for a table and in-bounds corner coordinates, the merge
operation makes the top-left cell of the bounding rectangle the master — its
colspan/rowspan become the rectangle's width/height and its text becomes the
space-joined concatenation of the non-empty texts among its own text and the
other cells' texts in row-major order — while every other cell in the
rectangle is marked placeholder with its text cleared. -/
theorem claim_C1 (d : Doc) (sr sc er ec : Nat) (h : History) (ti : Nat) (t : Table)
    (hidx : firstTableIdx d = some ti)
    (htbl : tableAt d ti = some t)
    (hrow : max er sr < t.rows.length)
    (hcols : ∀ r ∈ rowRange (min sr er) (max er sr),
      max ec sc < (t.rows.getD r defaultRow).cells.length) :
    ∃ t', EditorCore_merge_cells d sr sc er ec h
        = some (⟨listModify (fun _ => .table t') d.nodes ti, d.threads⟩,
                h.record_before_change d) ∧
      getCellD t' (min sr er) (min sc ec)
        = { getCellD t (min sr er) (min sc ec) with
            text := joinSkipEmpty ((getCellD t (min sr er) (min sc ec)).text ::
              (rectIdxExcl (min sr er) (min sc ec) (max er sr) (max ec sc)).map
                fun p => (getCellD t p.1 p.2).text)
            rowspan := max er sr - min sr er + 1
            colspan := max ec sc - min sc ec + 1 } ∧
      ∀ p ∈ rectIdxExcl (min sr er) (min sc ec) (max er sr) (max ec sc),
        getCellD t' p.1 p.2
          = { getCellD t p.1 p.2 with placeholder := true, text := [] } := by
  have hminr : min sr er ≤ max er sr := by omega
  have hr0 : min sr er < t.rows.length := by omega
  have hc00 : max ec sc < (t.rows.getD (min sr er) defaultRow).cells.length :=
    hcols _ (mem_rowRange.mpr ⟨le_refl _, hminr⟩)
  have hc0 : min sc ec < (t.rows.getD (min sr er) defaultRow).cells.length := by
    omega
  have hbounds : ∀ p ∈ rectIdxExcl (min sr er) (min sc ec) (max er sr) (max ec sc),
      p.1 < t.rows.length ∧ p.2 < (t.rows.getD p.1 defaultRow).cells.length := by
    intro p hp
    obtain ⟨⟨⟨h1, h2⟩, h3, h4⟩, _⟩ := mem_rectIdxExcl.mp hp
    refine ⟨by omega, ?_⟩
    have := hcols p.1 (mem_rowRange.mpr ⟨h1, h2⟩)
    omega
  have hmapM : optMapM (fun p => getCell t p.1 p.2)
      (rectIdxExcl (min sr er) (min sc ec) (max er sr) (max ec sc))
      = some ((rectIdxExcl (min sr er) (min sc ec) (max er sr) (max ec sc)).map
          fun p => getCellD t p.1 p.2) :=
    optMapM_eq_map _ _ _ fun p hp =>
      getCell_eq_getCellD t p.1 p.2 (hbounds p hp).1 (hbounds p hp).2
  have hng1 : ¬ (min sr er ≥ t.rows.length) := by omega
  have hng2 : ¬ (min sc ec ≥ (t.rows.getD (min sr er) defaultRow).cells.length) := by
    omega
  have hec : ecMergeTable t sr sc er ec
      = some (tableMapCells (ecWrite (min sr er) (min sc ec) (max er sr) (max ec sc)
          (joinSkipEmpty
            ((rectIdxExcl (min sr er) (min sc ec) (max er sr) (max ec sc)).map
              fun p => (getCellD t p.1 p.2).text))) t) := by
    simp only [ecMergeTable]
    rw [if_neg hng1, if_neg hng2, hmapM]
    simp [List.map_map, Function.comp_def]
  refine ⟨tableMapCells (ecWrite (min sr er) (min sc ec) (max er sr) (max ec sc)
      (joinSkipEmpty
        ((rectIdxExcl (min sr er) (min sc ec) (max er sr) (max ec sc)).map
          fun p => (getCellD t p.1 p.2).text))) t, ?_, ?_, ?_⟩
  · simp [EditorCore_merge_cells, hidx, htbl, hec]
  · rw [tableMapCells_getCellD _ _ _ _ hr0 hc0]
    simp [ecWrite, joinSkipEmpty_cons]
  · intro p hp
    obtain ⟨⟨⟨h1, h2⟩, h3, h4⟩, hne⟩ := mem_rectIdxExcl.mp hp
    rw [tableMapCells_getCellD _ _ _ _ (hbounds p hp).1 (hbounds p hp).2]
    have hnm : ¬ (p.1 = min sr er ∧ p.2 = min sc ec) := by
      rintro ⟨e1, e2⟩
      exact hne (Prod.ext e1 e2)
    simp [ecWrite, hnm, h1, h2, h3, h4]

/-- Witness for C1: merging the whole of the 2×2 table whose only non-empty
text is "A" in cell (0,0). -/
theorem claim_C1_witness :
    ∃ t', EditorCore_merge_cells docTable2x2A 0 0 1 1 ⟨[], []⟩
        = some (⟨listModify (fun _ => .table t') docTable2x2A.nodes 0,
                 docTable2x2A.threads⟩,
                History.record_before_change ⟨[], []⟩ docTable2x2A) ∧
      getCellD t' 0 0
        = { getCellD tableA2x2 0 0 with
            text := joinSkipEmpty ((getCellD tableA2x2 0 0).text ::
              (rectIdxExcl 0 0 1 1).map fun p => (getCellD tableA2x2 p.1 p.2).text)
            rowspan := 2
            colspan := 2 } ∧
      ∀ p ∈ rectIdxExcl 0 0 1 1,
        getCellD t' p.1 p.2
          = { getCellD tableA2x2 p.1 p.2 with placeholder := true, text := [] } :=
  claim_C1 docTable2x2A 0 0 1 1 ⟨[], []⟩ 0 tableA2x2 (by decide) (by decide)
    (by decide) (by decide)

/-- C1 counterexample to the literal reading: merging the 2×2 table whose
texts are "A", "", "", "" makes the master text "A" (the code skips empty
texts), not the literally space-joined concatenation "A   " of all four
texts in row-major order. -/
theorem claim_C1_counterexample :
    (((EditorCore_merge_cells docTable2x2A 0 0 1 1 ⟨[], []⟩).bind
        fun p => firstTable p.1).bind fun t => (getCell t 0 0).map (·.text))
      = some ['A'] ∧
    joinAllWithSpaces [['A'], [], [], []] = ['A', ' ', ' ', ' '] ∧
    (['A'] : List Char) ≠ ['A', ' ', ' ', ' '] := by
  decide

end SmartRte
